import Mathlib

/-!
Client / Server throughput benchmark: the receiver's framing loop, the sender's three
transmission strategies, argument validation and the printed durations.

A shallow embedding of `src/Server.cpp` and `src/Client.cpp`.

Conventions of the embedding.

* The value `atoi` returns is an `int`: the arguments of the client are passed through
  `toInt32`.
* System calls are the environment.  Every value a system call returns is an input of
  the model: the results of `read` are a sequence `rs : Nat → Int` (`rs k` is what the
  `k`-th call of `read` returns), the results of `write`/`writev` a function of the call
  index and the requested size, and the results of `gethostbyname`, `socket`, `connect`
  and `gettimeofday` fields of an environment record.  `atoi` is a field as well.
* A run is described by the list of its observable actions (socket calls, diagnostics,
  bytes written, lines printed) and by its exit status.
* Values of type `int` are integers kept in the range of a 32-bit `int` by `toInt32`
  (reduction modulo `2^32`) wherever the program can leave that range: the counter
  `count`, the accumulator `nRead`, the product `nbufs * bufsize` and the casts of the
  printed durations.  The loop index `i` never exceeds `nreps`.
* The status of `exit(EXIT_FAILURE)` is 1, that of `exit(EXIT_SUCCESS)` and of
  `return 0` is 0.
-/

/-- Conversion of an integer to a 32-bit two's complement `int`. -/
def toInt32 (x : Int) : Int := (x + 2147483648) % 4294967296 - 2147483648

/-- Conversion of an `int` to the unsigned 64-bit `size_t` of a byte count. -/
def toSizeT (x : Int) : Nat := (x % 18446744073709551616).toNat

/-- Status passed to `exit` on success. -/
def EXIT_SUCCESS : Int := 0

/-- Status passed to `exit` on failure. -/
def EXIT_FAILURE : Int := 1

/-- Value of a string of decimal digits, most significant first. -/
def digitsValue (cs : List Char) : Int :=
  cs.foldl (fun acc c => acc * 10 + ((c.toNat : Int) - 48)) 0

/-- A reading of the library function `atoi` used for the concrete runs below: an
optional minus sign followed by the leading decimal digits. -/
def atoiDigits (s : String) : Int :=
  match s.data with
  | '-' :: cs => - digitsValue (cs.takeWhile Char.isDigit)
  | cs => digitsValue (cs.takeWhile Char.isDigit)

/-- A `timeval`: seconds and microseconds. -/
structure Timeval where
  tv_sec : Int
  tv_usec : Int
deriving DecidableEq, Repr

/-- The duration printed with `%d`:
`static_cast<int>((stop.tv_sec - start.tv_sec) * 1000000 + stop.tv_usec - start.tv_usec)`. -/
def printedUsec (start stop : Timeval) : Int :=
  toInt32 ((stop.tv_sec - start.tv_sec) * 1000000 + stop.tv_usec - start.tv_usec)

/-- Elapsed microseconds between two timestamps, as a mathematical integer. -/
def elapsedUsec (start stop : Timeval) : Int :=
  (stop.tv_sec - start.tv_sec) * 1000000 + (stop.tv_usec - start.tv_usec)

/-- Time order on timestamps: earlier second, or same second and no later microsecond. -/
def Timeval.le (a b : Timeval) : Prop :=
  a.tv_sec < b.tv_sec ∨ (a.tv_sec = b.tv_sec ∧ a.tv_usec ≤ b.tv_usec)

/-- A `tv_usec` field in its normal range. -/
def Timeval.normal (a : Timeval) : Prop := 0 ≤ a.tv_usec ∧ a.tv_usec < 1000000

namespace Server

/-- Size of the incoming data buffer: `static int BUFSIZE = 1500;` -/
def BUFSIZE : Int := 1500

/-- Control points of the two nested `for` loops of `iohandler`. -/
inductive Pc where
  /-- at the test `i < nreps` of the outer loop -/
  | outer
  /-- at the condition of the inner loop, about to call `read` -/
  | inner
  /-- past the outer loop -/
  | done
deriving DecidableEq, Repr

/-- State of the framing loop: the program variables `i`, `nRead`, `count`, and the
number of `read` calls issued so far (the index of the next read result). -/
structure RecvState where
  pc : Pc
  i : Int
  nRead : Int
  count : Int
  reads : Nat
deriving DecidableEq, Repr

/-- State on entry to the outer loop: `count = 0`, `i = 0`. -/
def init : RecvState := ⟨Pc.outer, 0, 0, 0, 0⟩

/-- One step of
```
for (int i = 0; i < nreps; ++i)
    for (int nRead = 0;
        (nRead += read(newSd, databuf, BUFSIZE - nRead)) < BUFSIZE;
        ++count);
```
At `outer` the test `i < nreps` either enters the inner loop with `nRead = 0` or leaves.
At `inner` one `read` is performed, its result added to `nRead`; below `BUFSIZE` the
read is counted and the inner loop goes on, otherwise `++i` and back to the outer test.
The counter is a 32-bit `int`: `++count` past `2147483647` wraps around. -/
def step (nreps : Int) (rs : Nat → Int) (s : RecvState) : RecvState :=
  match s.pc with
  | Pc.outer =>
    if s.i < nreps then { s with pc := Pc.inner, nRead := 0 }
    else { s with pc := Pc.done }
  | Pc.inner =>
    let nRead := toInt32 (s.nRead + rs s.reads)
    if nRead < BUFSIZE then
      { s with nRead := nRead, count := toInt32 (s.count + 1), reads := s.reads + 1 }
    else
      { s with pc := Pc.outer, nRead := nRead, i := s.i + 1, reads := s.reads + 1 }
  | Pc.done => s

/-- The state after `k` steps. -/
def run (nreps : Int) (rs : Nat → Int) : Nat → RecvState
  | 0 => init
  | k + 1 => step nreps rs (run nreps rs k)

/-- Number of bytes `read` asks for in state `s`: `BUFSIZE - nRead`. -/
def requested (s : RecvState) : Int := BUFSIZE - s.nRead

/-- Sum of the values returned by the first `n` calls of `read`. -/
def bytesRead (rs : Nat → Int) (n : Nat) : Int := ((List.range n).map rs).sum

/-- Every `read` issued during the run returns at least 1 and at most the number of
bytes requested. -/
def GoodReads (nreps : Int) (rs : Nat → Int) : Prop :=
  ∀ k, (run nreps rs k).pc = Pc.inner →
    1 ≤ rs (run nreps rs k).reads ∧
      rs (run nreps rs k).reads ≤ requested (run nreps rs k)

/-- The incoming stream holds `total` bytes: while fewer than `total` bytes have been
delivered a `read` returns at least 1 and at most the smaller of the requested count and
what is left in the stream; once the stream is exhausted every `read` returns 0. -/
def StreamReads (total : Int) (nreps : Int) (rs : Nat → Int) : Prop :=
  ∀ k, (run nreps rs k).pc = Pc.inner →
    if bytesRead rs (run nreps rs k).reads < total then
      1 ≤ rs (run nreps rs k).reads ∧
        rs (run nreps rs k).reads ≤ requested (run nreps rs k) ∧
        rs (run nreps rs k).reads ≤ total - bytesRead rs (run nreps rs k).reads
    else rs (run nreps rs k).reads = 0

/-- Diagnostics the server writes to stderr. -/
inductive Diag where
  | usage
  | portRange
  | nrepsPositive
  | socketFailure
  | startTime
  | stopTime
deriving DecidableEq, Repr

/-- Observable actions of the server: diagnostics, socket calls, the count written
back to the client, the line printed on stdout. -/
inductive Event where
  | diag (d : Diag)
  | socket
  | setsockopt
  | bind (port : Int)
  | listen (backlog : Int)
  | writeCount (count : Int)
  | print (usec : Int)
  | close
deriving DecidableEq, Repr

/-- How far a run got: the actions performed, and the exit status when the process has
ended (`none` while it lives on, as the server does once it listens). -/
structure Outcome where
  trace : List Event
  status : Option Int
deriving DecidableEq, Repr

/-- Environment of the server's `main`: the library function `atoi` and the value
returned by `socket`. -/
structure MainEnv where
  atoi : String → Int
  socketRes : Int

/-- The port argument: `port = atoi(argv[1])`. -/
def argPort (env : MainEnv) (argv : List String) : Int := env.atoi (argv.getD 1 default)

/-- The repetition argument: `nreps = atoi(argv[2])`. -/
def argNreps (env : MainEnv) (argv : List String) : Int := env.atoi (argv.getD 2 default)

/-- The server's `main` up to `listen`: argument count, port range, `nreps`, then
`socket`, `setsockopt`, `bind`, `listen`.  After `listen` the process stays in the
accept loop. -/
def main (env : MainEnv) (argv : List String) : Outcome :=
  if argv.length ≠ 3 then ⟨[Event.diag Diag.usage], some EXIT_FAILURE⟩
  else if argPort env argv < 1024 ∨ argPort env argv > 65535 then
    ⟨[Event.diag Diag.portRange], some EXIT_FAILURE⟩
  else if argNreps env argv < 1 then ⟨[Event.diag Diag.nrepsPositive], some EXIT_FAILURE⟩
  else if env.socketRes < 0 then
    ⟨[Event.socket, Event.diag Diag.socketFailure], some EXIT_FAILURE⟩
  else
    ⟨[Event.socket, Event.setsockopt, Event.bind (argPort env argv), Event.listen 5], none⟩

/-- The arguments the server accepts: `argc = 3`, `1024 ≤ port ≤ 65535`, `nreps ≥ 1`. -/
def ValidArgs (env : MainEnv) (argv : List String) : Prop :=
  argv.length = 3 ∧ 1024 ≤ argPort env argv ∧ argPort env argv ≤ 65535 ∧
    1 ≤ argNreps env argv

/-- Environment of `iohandler`: the results of the two `gettimeofday` calls with the
timestamps they store, and the sequence of `read` results. -/
structure HandlerEnv where
  startRes : Int
  start : Timeval
  stopRes : Int
  stop : Timeval
  rs : Nat → Int

/-- The handler `iohandler`: start timer, framing loop, stop timer, write the count to
the client, print the receiving time, close, `exit(EXIT_SUCCESS)`.  The loop is given
`fuel` steps; `none` means it is still running after that many steps. -/
def iohandler (env : HandlerEnv) (nreps : Int) (fuel : Nat) : Option Outcome :=
  if env.startRes < 0 then some ⟨[Event.diag Diag.startTime], some EXIT_FAILURE⟩
  else
    let s := run nreps env.rs fuel
    if s.pc = Pc.done then
      if env.stopRes < 0 then some ⟨[Event.diag Diag.stopTime], some EXIT_FAILURE⟩
      else
        some ⟨[Event.writeCount s.count, Event.print (printedUsec env.start env.stop),
          Event.close], some EXIT_SUCCESS⟩
    else none

/-- Invariant of the framing loop when every read returns between 0 and the requested
count: the bytes read so far are the completed messages plus the accumulator, and the
accumulator is exactly `BUFSIZE` when a message has just been completed. -/
def Inv (nreps : Int) (rs : Nat → Int) (s : RecvState) : Prop :=
  0 ≤ s.i ∧ s.i ≤ nreps ∧ 0 ≤ s.nRead ∧ s.nRead ≤ BUFSIZE ∧
  match s.pc with
  | Pc.inner => s.i < nreps ∧ s.nRead < BUFSIZE ∧
      bytesRead rs s.reads = BUFSIZE * s.i + s.nRead
  | Pc.outer => bytesRead rs s.reads = BUFSIZE * s.i ∧ (0 < s.i → s.nRead = BUFSIZE)
  | Pc.done => s.i = nreps ∧ bytesRead rs s.reads = BUFSIZE * s.i ∧
      (0 < s.i → s.nRead = BUFSIZE)

/-- Reads that return between 0 and the requested count, along the run (it is enough
that they do so in states that satisfy the invariant). -/
def BoundedReads (nreps : Int) (rs : Nat → Int) : Prop :=
  ∀ k, (run nreps rs k).pc = Pc.inner → Inv nreps rs (run nreps rs k) →
    0 ≤ rs (run nreps rs k).reads ∧ rs (run nreps rs k).reads ≤ requested (run nreps rs k)

/-- Progress measure of the loop: it grows by at least one with every step as long as
every read returns at least one byte. -/
def potential (s : RecvState) : Int :=
  match s.pc with
  | Pc.outer => 1501 * s.i
  | Pc.inner => 1501 * s.i + 1 + s.nRead
  | Pc.done => 0

/-- Three reads of 500 bytes per message. -/
def thirds : Nat → Int := fun _ => 500

/-- Every read returns a single byte. -/
def ones : Nat → Int := fun _ => 1

/-- One read that returns a whole message of 1500 bytes, every time. -/
def whole : Nat → Int := fun _ => 1500

/-- A stream of 750 bytes delivered by the first read; every later read returns 0. -/
def halfThenNothing : Nat → Int := fun k => if k = 0 then 750 else 0

/-- A transient failure: the first read returns -1, then 1 byte, then 1500 bytes. -/
def failsOnce : Nat → Int := fun k => if k = 0 then -1 else if k = 1 then 1 else 1500

/-- Command line `server 5000 1`. -/
def goodArgv : List String := ["server", "5000", "1"]

/-- Command line `server 80 1`: a port below 1024. -/
def port80Argv : List String := ["server", "80", "1"]

end Server

namespace Client

/-- First enumerator of `tranType`, declared with the value 1; the next two follow. -/
def MULTIPLE : Int := 1

/-- Second enumerator of `tranType`. -/
def WRITEV : Int := 2

/-- Third enumerator of `tranType`. -/
def SINGLE : Int := 3

/-- Diagnostics the client writes to stderr. -/
inductive Diag where
  | usage
  | unknownHost
  | socketFailure
  | connectFailure
  | startTime
  | invalidType
  | lapTime
  | stopTime
deriving DecidableEq, Repr

/-- Observable actions of the client.  `write requested emitted` is one call of `write`
or `writev` asking for `requested` bytes of which the bytes `emitted` went out. -/
inductive Event where
  | diag (d : Diag)
  | socket
  | connect
  | write (requested : Nat) (emitted : List Char)
  | readAck
  | close
  | print (sending roundTrip count : Int)
deriving DecidableEq, Repr

/-- The actions performed and the exit status. -/
structure Outcome where
  trace : List Event
  status : Int
deriving DecidableEq, Repr

/-- The array `char databuf[nbufs][bufsize]` after
`memset(databuf, 'B', sizeof(databuf))`, as the flat memory of the array, in a run in
which the array could be allocated (`sizeof` is computed in `size_t`). -/
def databuf (nbufs bufsize : Nat) : List Char := List.replicate (nbufs * bufsize) 'B'

/-- The `bufsize` bytes at `databuf[j]`. -/
def row (mem : List Char) (bufsize j : Nat) : List Char := (mem.drop (j * bufsize)).take bufsize

/-- Bytes that go out when a write of buffer `buf` returns `res`: the first `res`
bytes, none when `res` is negative. -/
def emitted (buf : List Char) (res : Int) : List Char := buf.take res.toNat

/-- Buffers of the write calls of one repetition of the MULTIPLE branch:
`for (j = 0; j < nbufs; ++j) write(clientSd, databuf[j], bufsize);` -/
def multipleRep (mem : List Char) (nbufs bufsize : Nat) : List (List Char) :=
  (List.range nbufs).map (fun j => row mem bufsize j)

/-- Buffer of the one `writev` call of a repetition of the WRITEV branch: the iovec
entries `databuf[0]`, ..., `databuf[nbufs - 1]`, each of length `bufsize`, gathered in
order. -/
def writevRep (mem : List Char) (nbufs bufsize : Nat) : List Char :=
  ((List.range nbufs).map (fun j => row mem bufsize j)).flatten

/-- Buffer of the one `write` call of a repetition of the SINGLE branch:
`write(clientSd, databuf, nbufs * bufsize)`.  The product is computed in `int` and then
converted to the `size_t` count of `write`; a count that reaches past the array is cut
at the end of the array. -/
def singleRep (mem : List Char) (nbufs bufsize : Nat) : List Char :=
  mem.take (toSizeT (toInt32 ((nbufs : Int) * (bufsize : Int))))

/-- The buffers of all write calls of the transmission loop in program order, by
strategy; `none` for a `type` that is none of the three. -/
def calls (type : Int) (mem : List Char) (nreps nbufs bufsize : Nat) :
    Option (List (List Char)) :=
  if type = MULTIPLE then
    some ((List.range nreps).flatMap (fun _ => multipleRep mem nbufs bufsize))
  else if type = WRITEV then
    some ((List.range nreps).map (fun _ => writevRep mem nbufs bufsize))
  else if type = SINGLE then
    some ((List.range nreps).map (fun _ => singleRep mem nbufs bufsize))
  else none

/-- Issue the write calls in order against the socket.  `wr k n` is the value the
`k`-th call returns when asked for `n` bytes; the program never looks at it. -/
def perform (wr : Nat → Nat → Int) : Nat → List (List Char) → List Event
  | _, [] => []
  | k, buf :: rest =>
    Event.write buf.length (emitted buf (wr k buf.length)) :: perform wr (k + 1) rest

/-- The bytes handed to the socket along a trace, concatenated. -/
def sentBytes : List Event → List Char
  | [] => []
  | Event.write _ bytes :: rest => bytes ++ sentBytes rest
  | _ :: rest => sentBytes rest

/-- The transmission loop of `main`: the write events of the selected strategy, `none`
for an unknown `type`. -/
def transmit (wr : Nat → Nat → Int) (type : Int) (nreps nbufs bufsize : Nat) :
    Option (List Event) :=
  (calls type (databuf nbufs bufsize) nreps nbufs bufsize).map (perform wr 0)

/-- Environment of the client's `main`: `atoi`, whether `gethostbyname` found the host,
the values returned by `socket`, `connect`, the three `gettimeofday` calls (with the
timestamps stored), the write calls, and the `read` of the acknowledgment (with the
value it stores into `count`). -/
structure Env where
  atoi : String → Int
  hostFound : Bool
  socketRes : Int
  connectRes : Int
  startRes : Int
  start : Timeval
  wr : Nat → Nat → Int
  lapRes : Int
  lap : Timeval
  ackRes : Int
  ackCount : Int
  stopRes : Int
  stop : Timeval

/-- Value of `count` after `read(clientSd, &count, sizeof(int))`: initially 0, and
what the read stored when it returned a positive number of bytes. -/
def countAfterAck (env : Env) : Int := if 0 < env.ackRes then env.ackCount else 0

/-- The argument `nreps = atoi(argv[2])`, as the number of iterations of a loop
`i < nreps`. -/
def argNreps (env : Env) (argv : List String) : Nat :=
  (toInt32 (env.atoi (argv.getD 2 default))).toNat

/-- The argument `nbufs = atoi(argv[3])`. -/
def argNbufs (env : Env) (argv : List String) : Nat :=
  (toInt32 (env.atoi (argv.getD 3 default))).toNat

/-- The argument `bufsize = atoi(argv[4])`. -/
def argBufsize (env : Env) (argv : List String) : Nat :=
  (toInt32 (env.atoi (argv.getD 4 default))).toNat

/-- The argument `type = static_cast<tranType>(atoi(argv[6]))`. -/
def argType (env : Env) (argv : List String) : Int :=
  toInt32 (env.atoi (argv.getD 6 default))

/-- The client's `main`: argument count, host lookup, `socket`, `connect`, start time,
the transmission loop of the selected strategy, lap time, read of the acknowledgment,
`close`, stop time, the statistics line, `return 0`. -/
def main (env : Env) (argv : List String) : Outcome :=
  if argv.length ≠ 7 then ⟨[Event.diag Diag.usage], EXIT_FAILURE⟩
  else if env.hostFound = false then ⟨[Event.diag Diag.unknownHost], EXIT_FAILURE⟩
  else if env.socketRes < 0 then
    ⟨[Event.socket, Event.diag Diag.socketFailure], EXIT_FAILURE⟩
  else if env.connectRes < 0 then
    ⟨[Event.socket, Event.connect, Event.diag Diag.connectFailure, Event.close],
      EXIT_FAILURE⟩
  else if env.startRes < 0 then
    ⟨[Event.socket, Event.connect, Event.diag Diag.startTime], EXIT_FAILURE⟩
  else
    match transmit env.wr (argType env argv) (argNreps env argv) (argNbufs env argv)
        (argBufsize env argv) with
    | none =>
      ⟨[Event.socket, Event.connect, Event.diag Diag.invalidType, Event.close],
        EXIT_FAILURE⟩
    | some writes =>
      if env.lapRes < 0 then
        ⟨[Event.socket, Event.connect] ++ writes ++ [Event.diag Diag.lapTime],
          EXIT_FAILURE⟩
      else if env.stopRes < 0 then
        ⟨[Event.socket, Event.connect] ++ writes ++
          [Event.readAck, Event.close, Event.diag Diag.stopTime], EXIT_FAILURE⟩
      else
        ⟨[Event.socket, Event.connect] ++ writes ++
          [Event.readAck, Event.close,
            Event.print (printedUsec env.start env.lap) (printedUsec env.start env.stop)
              (countAfterAck env)], 0⟩

/-- Every write call emits all the bytes it is asked to. -/
def FullWrites (wr : Nat → Nat → Int) : Prop := ∀ k n, wr k n = (n : Int)

/-- An environment in which everything succeeds except that every write call returns 1. -/
def shortEnv : Env :=
  ⟨atoiDigits, true, 3, 0, 0, ⟨0, 0⟩, fun _ _ => 1, 0, ⟨0, 5⟩, 4, 0, 0, ⟨0, 9⟩⟩

/-- Command line `client 5000 1 1 2 localhost 3`: one repetition of one buffer of two
bytes, strategy SINGLE. -/
def singleArgv : List String := ["client", "5000", "1", "1", "2", "localhost", "3"]

/-- An environment in which the write calls and the read of the acknowledgment all
fail with -1 and everything else succeeds. -/
def failingEnv : Env :=
  ⟨atoiDigits, true, 3, 0, 0, ⟨0, 0⟩, fun _ _ => -1, 0, ⟨0, 5⟩, -1, 0, 0, ⟨0, 9⟩⟩

/-- An environment in which everything succeeds and every write is complete. -/
def fineEnv : Env :=
  ⟨atoiDigits, true, 3, 0, 0, ⟨0, 0⟩, fun _ n => n, 0, ⟨0, 5⟩, 4, 0, 0, ⟨0, 9⟩⟩

/-- An environment in which `connect` succeeds and the `gettimeofday` call that follows
it fails. -/
def clockFailsEnv : Env :=
  ⟨atoiDigits, true, 3, 0, -1, ⟨0, 0⟩, fun _ n => n, 0, ⟨0, 5⟩, 4, 0, 0, ⟨0, 9⟩⟩

/-- Command line `client 5000 1 1 2 localhost 9`: an unknown strategy code. -/
def type9Argv : List String := ["client", "5000", "1", "1", "2", "localhost", "9"]

end Client

/-! ## Arithmetic of the 32-bit conversion -/

theorem toInt32_of_range (x : Int) (h1 : -2147483648 ≤ x) (h2 : x < 2147483648) :
    toInt32 x = x := by
  unfold toInt32
  omega

namespace Server

/-! ## The framing loop -/

theorem run_succ (nreps : Int) (rs : Nat → Int) (k : Nat) :
    run nreps rs (k + 1) = step nreps rs (run nreps rs k) := rfl

theorem bytesRead_succ (rs : Nat → Int) (n : Nat) :
    bytesRead rs (n + 1) = bytesRead rs n + rs n := by
  simp [bytesRead, List.range_succ]

theorem step_done (nreps : Int) (rs : Nat → Int) (s : RecvState) (h : s.pc = Pc.done) :
    step nreps rs s = s := by
  simp [step, h]

/-- Once past the outer loop the state no longer changes. -/
theorem run_done_add (nreps : Int) (rs : Nat → Int) (k : Nat)
    (h : (run nreps rs k).pc = Pc.done) (j : Nat) :
    run nreps rs (k + j) = run nreps rs k := by
  induction j with
  | zero => rfl
  | succ j ih =>
    rw [← Nat.add_assoc, run_succ, ih, step_done _ _ _ h]

theorem run_done_of_le (nreps : Int) (rs : Nat → Int) (k m : Nat) (hkm : k ≤ m)
    (h : (run nreps rs k).pc = Pc.done) : run nreps rs m = run nreps rs k := by
  obtain ⟨j, rfl⟩ := Nat.exists_eq_add_of_le hkm
  exact run_done_add nreps rs k h j

/-- A step never leaves `done`, so a state that is not `done` has a predecessor that is
not `done`. -/
theorem not_done_of_succ (nreps : Int) (rs : Nat → Int) (k : Nat)
    (h : (run nreps rs (k + 1)).pc ≠ Pc.done) : (run nreps rs k).pc ≠ Pc.done := by
  intro hd
  apply h
  rw [run_succ, step_done _ _ _ hd]
  exact hd

theorem toInt32_succ (a : Int) : toInt32 (toInt32 a + 1) = toInt32 (a + 1) := by
  unfold toInt32
  omega

/-- The counter is the number of reads issued minus the number of completed messages,
as a 32-bit `int`, whatever the reads return: each read either increments `count` or
completes a message. -/
theorem count_eq (nreps : Int) (rs : Nat → Int) (k : Nat) :
    (run nreps rs k).count = toInt32 ((run nreps rs k).reads - (run nreps rs k).i) := by
  induction k with
  | zero => simp [run, init, toInt32]
  | succ k ih =>
    rw [run_succ]
    generalize run nreps rs k = s at ih
    obtain ⟨pc, i, nRead, count, reads⟩ := s
    cases pc <;> simp only [step] at ih ⊢
    · split_ifs <;> simpa using ih
    · split_ifs
      · simp only [Nat.cast_add, Nat.cast_one]
        rw [ih, toInt32_succ]
        congr 1
        ring
      · simp only [Nat.cast_add, Nat.cast_one]
        rw [ih]
        congr 1
        ring
    · exact ih

theorem inv_step (nreps : Int) (rs : Nat → Int) (s : RecvState) (hinv : Inv nreps rs s)
    (hr : s.pc = Pc.inner → 0 ≤ rs s.reads ∧ rs s.reads ≤ requested s) :
    Inv nreps rs (step nreps rs s) := by
  obtain ⟨pc, i, nRead, count, reads⟩ := s
  cases pc
  · simp only [Inv, step, BUFSIZE] at hinv ⊢
    obtain ⟨h0, h1, h2, h3, h4, h5⟩ := hinv
    split_ifs with h
    · simp only
      refine ⟨h0, h1, le_refl _, by norm_num, h, by norm_num, ?_⟩
      omega
    · simp only
      exact ⟨h0, h1, h2, h3, by omega, h4, h5⟩
  · simp only [Inv, step, BUFSIZE, requested] at hinv hr ⊢
    obtain ⟨h0, h1, h2, h3, h4, h5, h6⟩ := hinv
    obtain ⟨hr0, hr1⟩ := hr trivial
    have hcast : toInt32 (nRead + rs reads) = nRead + rs reads :=
      toInt32_of_range _ (by omega) (by omega)
    rw [hcast]
    split_ifs with h
    · simp only
      rw [bytesRead_succ]
      exact ⟨h0, h1, by omega, by omega, h4, h, by omega⟩
    · simp only
      rw [bytesRead_succ]
      exact ⟨by omega, by omega, by omega, by omega, by omega, fun _ => by omega⟩
  · simpa [step] using hinv

theorem inv_run (nreps : Int) (rs : Nat → Int) (h0 : 0 ≤ nreps)
    (hb : BoundedReads nreps rs) (k : Nat) : Inv nreps rs (run nreps rs k) := by
  induction k with
  | zero => simp [run, init, Inv, h0, bytesRead, BUFSIZE]
  | succ k ih => exact inv_step nreps rs _ ih (fun hk => hb k hk ih)

theorem goodReads_bounded {nreps : Int} {rs : Nat → Int} (h : GoodReads nreps rs) :
    BoundedReads nreps rs := by
  intro k hk _
  obtain ⟨h1, h2⟩ := h k hk
  exact ⟨by omega, h2⟩

theorem streamReads_bounded {total nreps : Int} {rs : Nat → Int}
    (h : StreamReads total nreps rs) : BoundedReads nreps rs := by
  intro k hk hinv
  have := h k hk
  split_ifs at this with hlt
  · exact ⟨by omega, this.2.1⟩
  · rw [this]
    simp only [Inv, hk, BUFSIZE] at hinv
    simp only [requested, BUFSIZE]
    exact ⟨le_refl _, by omega⟩

theorem potential_step (nreps : Int) (rs : Nat → Int) (s : RecvState)
    (hinv : Inv nreps rs s)
    (hr : s.pc = Pc.inner → 1 ≤ rs s.reads ∧ rs s.reads ≤ requested s)
    (hnd : (step nreps rs s).pc ≠ Pc.done) :
    potential s + 1 ≤ potential (step nreps rs s) := by
  obtain ⟨pc, i, nRead, count, reads⟩ := s
  cases pc
  · simp only [step] at hnd ⊢
    split_ifs at hnd ⊢ with h
    · simp [potential]
    · simp at hnd
  · simp only [Inv, step, BUFSIZE, requested] at hinv hr hnd ⊢
    obtain ⟨h0, h1, h2, h3, h4, h5, h6⟩ := hinv
    obtain ⟨hr0, hr1⟩ := hr trivial
    have hcast : toInt32 (nRead + rs reads) = nRead + rs reads :=
      toInt32_of_range _ (by omega) (by omega)
    rw [hcast]
    split_ifs with h
    · simp only [potential]; omega
    · simp only [potential]; omega
  · simp [step] at hnd

theorem potential_le (nreps : Int) (rs : Nat → Int) (s : RecvState)
    (hinv : Inv nreps rs s) (hnd : s.pc ≠ Pc.done) : potential s ≤ 1501 * nreps := by
  obtain ⟨pc, i, nRead, count, reads⟩ := s
  cases pc
  · simp only [Inv, potential] at hinv ⊢; omega
  · simp only [Inv, potential, BUFSIZE] at hinv ⊢; omega
  · simp at hnd

theorem le_potential (nreps : Int) (rs : Nat → Int) (h0 : 0 ≤ nreps)
    (hg : GoodReads nreps rs) (k : Nat) (hnd : (run nreps rs k).pc ≠ Pc.done) :
    (k : Int) ≤ potential (run nreps rs k) := by
  induction k with
  | zero => simp [run, init, potential]
  | succ k ih =>
    have hk := ih (not_done_of_succ nreps rs k hnd)
    have := potential_step nreps rs (run nreps rs k) (inv_run nreps rs h0 (goodReads_bounded hg) k)
      (hg k) hnd
    rw [run_succ]
    push_cast
    omega

/-- With reads that return at least one byte the loop is past its end after
`1501 * nreps + 1` steps. -/
theorem run_terminates (nreps : Int) (rs : Nat → Int) (h0 : 0 ≤ nreps)
    (hg : GoodReads nreps rs) :
    (run nreps rs ((1501 * nreps).toNat + 1)).pc = Pc.done := by
  by_contra hnd
  have h1 := le_potential nreps rs h0 hg _ hnd
  have h2 := potential_le nreps rs _ (inv_run nreps rs h0 (goodReads_bounded hg) _) hnd
  have h3 : ((1501 * nreps).toNat : Int) = 1501 * nreps := Int.toNat_of_nonneg (by omega)
  push_cast at h1
  omega

/-- With reads that return at least one byte, no more reads are issued than bytes are
returned. -/
theorem reads_le_bytes (nreps : Int) (rs : Nat → Int) (hg : GoodReads nreps rs) (k : Nat) :
    ((run nreps rs k).reads : Int) ≤ bytesRead rs (run nreps rs k).reads := by
  induction k with
  | zero => simp [run, init, bytesRead]
  | succ k ih =>
    rw [run_succ]
    have hgk := hg k
    generalize run nreps rs k = s at ih hgk
    obtain ⟨pc, i, nRead, count, reads⟩ := s
    cases pc <;> simp only [step] at ih hgk ⊢
    · split_ifs <;> simpa using ih
    · have := (hgk trivial).1
      split_ifs <;> (simp only [bytesRead_succ]; push_cast; omega)
    · exact ih

/-- A finite check suffices for a concrete read sequence whose run reaches `done`. -/
theorem goodReads_of_prefix (nreps : Int) (rs : Nat → Int) (K : Nat)
    (hdone : (run nreps rs K).pc = Pc.done)
    (h : ∀ k, k < K → (run nreps rs k).pc = Pc.inner →
      1 ≤ rs (run nreps rs k).reads ∧
        rs (run nreps rs k).reads ≤ requested (run nreps rs k)) :
    GoodReads nreps rs := by
  intro k hk
  rcases Nat.lt_or_ge k K with hlt | hge
  · exact h k hlt hk
  · rw [run_done_of_le nreps rs K k hge hdone, hdone] at hk
    exact absurd hk (by decide)

/-- Under a stream of `total` bytes no more than `total` bytes are ever returned. -/
theorem bytes_le_total (total nreps : Int) (rs : Nat → Int) (ht : 0 ≤ total)
    (hs : StreamReads total nreps rs) (k : Nat) :
    bytesRead rs (run nreps rs k).reads ≤ total := by
  induction k with
  | zero => simpa [run, init, bytesRead] using ht
  | succ k ih =>
    rw [run_succ]
    have hsk := hs k
    generalize run nreps rs k = s at ih hsk
    obtain ⟨pc, i, nRead, count, reads⟩ := s
    cases pc <;> simp only [step] at ih hsk ⊢
    · split_ifs <;> simpa using ih
    · have := hsk trivial
      split_ifs at this ⊢ <;> (simp only [bytesRead_succ]; omega)
    · exact ih

/-- A stream that holds at least `BUFSIZE * nreps` bytes gives the loop reads of at
least one byte each. -/
theorem streamReads_good {total nreps : Int} {rs : Nat → Int} (h0 : 0 ≤ nreps)
    (hs : StreamReads total nreps rs) (ht : BUFSIZE * nreps ≤ total) :
    GoodReads nreps rs := by
  intro k hk
  have hinv := inv_run nreps rs h0 (streamReads_bounded hs) k
  have := hs k hk
  simp only [Inv, hk, BUFSIZE] at hinv
  simp only [BUFSIZE] at ht
  split_ifs at this with hlt
  · exact ⟨this.1, this.2.1⟩
  · omega

/-- A stream that holds fewer than `BUFSIZE * nreps` bytes never lets the loop end. -/
theorem never_done_of_short_stream (total nreps : Int) (rs : Nat → Int) (h0 : 0 ≤ nreps)
    (ht0 : 0 ≤ total) (ht : total < BUFSIZE * nreps) (hs : StreamReads total nreps rs)
    (k : Nat) : (run nreps rs k).pc ≠ Pc.done := by
  intro hd
  have hinv := inv_run nreps rs h0 (streamReads_bounded hs) k
  have hle := bytes_le_total total nreps rs ht0 hs k
  simp only [Inv, hd, BUFSIZE] at hinv
  simp only [BUFSIZE] at ht
  obtain ⟨_, _, _, _, hi, hb, _⟩ := hinv
  rw [hi] at hb
  omega

theorem thirds_good : GoodReads 1 thirds :=
  goodReads_of_prefix 1 thirds 5 (by decide) (by decide)

/-- A finite check suffices for a concrete stream whose run reaches `done`. -/
theorem streamReads_of_prefix (total nreps : Int) (rs : Nat → Int) (K : Nat)
    (hdone : (run nreps rs K).pc = Pc.done)
    (h : ∀ k, k < K → (run nreps rs k).pc = Pc.inner →
      if bytesRead rs (run nreps rs k).reads < total then
        1 ≤ rs (run nreps rs k).reads ∧
          rs (run nreps rs k).reads ≤ requested (run nreps rs k) ∧
          rs (run nreps rs k).reads ≤ total - bytesRead rs (run nreps rs k).reads
      else rs (run nreps rs k).reads = 0) :
    StreamReads total nreps rs := by
  intro k hk
  rcases Nat.lt_or_ge k K with hlt | hge
  · exact h k hlt hk
  · rw [run_done_of_le nreps rs K k hge hdone, hdone] at hk
    exact absurd hk (by decide)

theorem halfThenNothing_bytes (j : Nat) : bytesRead halfThenNothing (j + 1) = 750 := by
  induction j with
  | zero => decide
  | succ j ih => rw [bytesRead_succ, ih]; simp [halfThenNothing]

theorem halfThenNothing_run (j : Nat) :
    ∃ c, run 1 halfThenNothing (j + 2) = ⟨Pc.inner, 0, 750, c, j + 1⟩ := by
  induction j with
  | zero => exact ⟨1, by decide⟩
  | succ j ih =>
    obtain ⟨c, hc⟩ := ih
    refine ⟨toInt32 (c + 1), ?_⟩
    rw [run_succ, hc]
    simp only [step, halfThenNothing]
    simp [toInt32, BUFSIZE]

theorem halfThenNothing_stream : StreamReads (1 * 750) 1 halfThenNothing := by
  intro k hk
  match k, hk with
  | 0, hk => exact absurd hk (by decide)
  | 1, _ => decide
  | j + 2, _ =>
    obtain ⟨c, hc⟩ := halfThenNothing_run j
    rw [hc]
    simp only [halfThenNothing_bytes]
    simp [halfThenNothing]

theorem ones_bytes (n : Nat) : bytesRead ones n = n := by
  induction n with
  | zero => rfl
  | succ n ih => rw [bytesRead_succ, ih]; simp [ones]

/-- Reads of one byte each are good reads for every number of repetitions. -/
theorem ones_good (nreps : Int) (h0 : 0 ≤ nreps) : GoodReads nreps ones := by
  have hb : BoundedReads nreps ones := by
    intro k hk hinv
    simp only [Inv, hk, BUFSIZE] at hinv
    simp only [ones, requested, BUFSIZE]
    omega
  intro k hk
  have hinv := inv_run nreps ones h0 hb k
  simp only [Inv, hk, BUFSIZE] at hinv
  simp only [ones, requested, BUFSIZE]
  omega

theorem thirds_good_two : GoodReads 2 thirds :=
  goodReads_of_prefix 2 thirds 9 (by decide) (by decide)

/-- With reads of at least one byte and `1499 * nreps` within the range of `int` the
counter does not wrap: it is the number of reads minus the completed messages. -/
theorem i_le_reads (nreps : Int) (rs : Nat → Int) (k : Nat) :
    (run nreps rs k).i ≤ ((run nreps rs k).reads : Int) := by
  induction k with
  | zero => simp [run, init]
  | succ k ih =>
    rw [run_succ]
    generalize run nreps rs k = s at ih
    obtain ⟨pc, i, nRead, count, reads⟩ := s
    cases pc <;> simp only [step] at ih ⊢
    · split_ifs <;> simpa using ih
    · split_ifs <;> (push_cast; omega)
    · exact ih

theorem count_exact (nreps : Int) (rs : Nat → Int) (h0 : 0 ≤ nreps)
    (hfit : 1499 * nreps ≤ 2147483647) (hg : GoodReads nreps rs) (k : Nat) :
    (run nreps rs k).count = (run nreps rs k).reads - (run nreps rs k).i ∧
    0 ≤ (run nreps rs k).count ∧ (run nreps rs k).count ≤ 1499 * nreps := by
  have hc := count_eq nreps rs k
  have hinv := inv_run nreps rs h0 (goodReads_bounded hg) k
  have hrb := reads_le_bytes nreps rs hg k
  have hlo := i_le_reads nreps rs k
  have hhi : ((run nreps rs k).reads : Int) - (run nreps rs k).i ≤ 1499 * nreps := by
    simp only [Inv, BUFSIZE] at hinv
    obtain ⟨h1, h2, h3, h4, hpc⟩ := hinv
    cases hpc' : (run nreps rs k).pc <;> rw [hpc'] at hpc <;> simp only at hpc <;> omega
  rw [toInt32_of_range _ (by omega) (by omega)] at hc
  exact ⟨hc, by omega, by omega⟩

/-- What the handler writes back is the loop's final `count`. -/
theorem iohandler_writeCount (env : HandlerEnv) (nreps : Int) (fuel : Nat) (out : Outcome)
    (c : Int) (h : iohandler env nreps fuel = some out)
    (hc : Event.writeCount c ∈ out.trace) :
    (run nreps env.rs fuel).pc = Pc.done ∧ c = (run nreps env.rs fuel).count := by
  unfold iohandler at h
  by_cases h1 : env.startRes < 0
  · simp only [h1, if_true, Option.some.injEq] at h
    subst h
    simp at hc
  · by_cases h2 : (run nreps env.rs fuel).pc = Pc.done
    · by_cases h3 : env.stopRes < 0
      · simp only [h1, h2, h3, if_true, if_false, Option.some.injEq] at h
        subst h
        simp at hc
      · simp only [h1, h2, h3, if_true, if_false, Option.some.injEq] at h
        subst h
        simp at hc
        exact ⟨h2, hc⟩
    · simp [h1, h2] at h

/-! ## Claims about the receiver -/

/-- C1, refuted as stated: with `nreps = 1432612` and reads of one byte each (every one
within the requested count) the loop finishes after 2148918000 reads, and the 32-bit
counter that is sent back has wrapped around to -2147481908, which is not the number
of reads minus `nreps` (2147485388). -/
theorem iohandler_count_wraps :
    (1 : Int) ≤ 1432612 ∧ GoodReads 1432612 ones ∧
    (run 1432612 ones ((1501 * 1432612 : Int).toNat + 1)).pc = Pc.done ∧
    ((run 1432612 ones ((1501 * 1432612 : Int).toNat + 1)).reads : Int) = 2148918000 ∧
    (run 1432612 ones ((1501 * 1432612 : Int).toNat + 1)).count = -2147481908 ∧
    (run 1432612 ones ((1501 * 1432612 : Int).toNat + 1)).count ≠
      ((run 1432612 ones ((1501 * 1432612 : Int).toNat + 1)).reads : Int) - 1432612 := by
  have hg : GoodReads 1432612 ones := ones_good 1432612 (by decide)
  have hd := run_terminates 1432612 ones (by decide) hg
  have hinv := inv_run 1432612 ones (by decide) (goodReads_bounded hg)
    ((1501 * 1432612 : Int).toNat + 1)
  have hc := count_eq 1432612 ones ((1501 * 1432612 : Int).toNat + 1)
  generalize run 1432612 ones ((1501 * 1432612 : Int).toNat + 1) = s at hd hinv hc ⊢
  simp only [Inv, hd, BUFSIZE, ones_bytes] at hinv
  obtain ⟨_, _, _, _, hi, hb, _⟩ := hinv
  have hreads : (s.reads : Int) = 2148918000 := by omega
  have hcount : s.count = -2147481908 := by
    rw [hc, hreads, hi]
    decide
  refine ⟨by decide, hg, hd, hreads, hcount, ?_⟩
  rw [hcount, hreads]
  decide

/-- C1, amended. Counter semantics of the framing loop: for `nreps ≥ 1` with
`1499 * nreps` within the range of `int` (that is `nreps ≤ 1432610`) and reads that each
return at least 1 and at most the requested number of bytes, the loop finishes, and when
it has finished `count` is the number of `read` calls performed minus `nreps`; this is
the value `iohandler` writes back to the client. -/
theorem iohandler_count_is_reads_minus_nreps (env : HandlerEnv) (nreps : Int)
    (h1 : 1 ≤ nreps) (hfit : 1499 * nreps ≤ 2147483647) (hg : GoodReads nreps env.rs) :
    (run nreps env.rs ((1501 * nreps).toNat + 1)).pc = Pc.done ∧
    (∀ k, (run nreps env.rs k).pc = Pc.done →
      (run nreps env.rs k).count = (run nreps env.rs k).reads - nreps) ∧
    (∀ fuel out c, iohandler env nreps fuel = some out → Event.writeCount c ∈ out.trace →
      c = ((run nreps env.rs fuel).reads : Int) - nreps) := by
  have hdone : ∀ k, (run nreps env.rs k).pc = Pc.done →
      (run nreps env.rs k).count = (run nreps env.rs k).reads - nreps := by
    intro k hk
    have hc := (count_exact nreps env.rs (by omega) hfit hg k).1
    have hinv := inv_run nreps env.rs (by omega) (goodReads_bounded hg) k
    simp only [Inv, hk] at hinv
    omega
  refine ⟨run_terminates nreps env.rs (by omega) hg, hdone, ?_⟩
  intro fuel out c h hc
  obtain ⟨hd, rfl⟩ := iohandler_writeCount env nreps fuel out c h hc
  exact hdone fuel hd

/-- Witness for C1 amended: two messages, each received in three reads of 500 bytes;
the loop ends with `i = 2`, `nRead = 1500`, 6 reads and `count = 4 = 6 - 2`, and the
handler writes back 4. -/
theorem iohandler_count_is_reads_minus_nreps_witness :
    ((run 2 thirds 3003).pc = Pc.done ∧
    (∀ k, (run 2 thirds k).pc = Pc.done →
      (run 2 thirds k).count = (run 2 thirds k).reads - 2) ∧
    (∀ fuel out c, iohandler ⟨0, ⟨0, 0⟩, 0, ⟨0, 7⟩, thirds⟩ 2 fuel = some out →
      Event.writeCount c ∈ out.trace → c = ((run 2 thirds fuel).reads : Int) - 2)) ∧
    run 2 thirds 9 = ⟨Pc.done, 2, 1500, 4, 6⟩ ∧
    iohandler ⟨0, ⟨0, 0⟩, 0, ⟨0, 7⟩, thirds⟩ 2 9 =
      some ⟨[Event.writeCount 4, Event.print 7, Event.close], some 0⟩ :=
  ⟨iohandler_count_is_reads_minus_nreps ⟨0, ⟨0, 0⟩, 0, ⟨0, 7⟩, thirds⟩ 2 (by decide)
    (by decide) thirds_good_two, by decide, by decide⟩

/-- C2. Byte conservation at the receiver: for `nreps ≥ 1`, `nbufs * bufsize = 1500` and
reads that each return at least 1 and at most the requested number of bytes, the loop
finishes, the values returned by all its reads sum to `nreps * nbufs * bufsize`, the
accumulator `nRead` never exceeds 1500, and it is exactly 1500 whenever the inner loop
has been left after a message. -/
theorem iohandler_byte_conservation (nreps nbufs bufsize : Int) (rs : Nat → Int)
    (h1 : 1 ≤ nreps) (hm : nbufs * bufsize = 1500) (hg : GoodReads nreps rs) :
    (run nreps rs ((1501 * nreps).toNat + 1)).pc = Pc.done ∧
    (∀ k, (run nreps rs k).pc = Pc.done →
      bytesRead rs (run nreps rs k).reads = nreps * nbufs * bufsize) ∧
    (∀ k, (run nreps rs k).nRead ≤ 1500) ∧
    (∀ k, (run nreps rs k).pc ≠ Pc.inner → 0 < (run nreps rs k).i →
      (run nreps rs k).nRead = 1500) := by
  have hinv := inv_run nreps rs (by omega) (goodReads_bounded hg)
  refine ⟨run_terminates nreps rs (by omega) hg, ?_, ?_, ?_⟩
  · intro k hk
    have := hinv k
    simp only [Inv, hk, BUFSIZE] at this
    obtain ⟨_, _, _, _, hi, hb, _⟩ := this
    rw [hb, hi, mul_assoc, hm, mul_comm]
  · intro k
    have := hinv k
    simp only [Inv, BUFSIZE] at this
    exact this.2.2.2.1
  · intro k hk hi
    have := hinv k
    simp only [Inv, BUFSIZE] at this
    obtain ⟨_, _, _, _, hpc⟩ := this
    cases hpc' : (run nreps rs k).pc
    · rw [hpc'] at hpc; exact hpc.2 hi
    · exact absurd hpc' hk
    · rw [hpc'] at hpc; exact hpc.2.2 hi

/-- Witness for C2: `nreps = 2`, `nbufs = 30`, `bufsize = 50`, every message received in
three reads of 500 bytes.  The reads are good reads for both messages; after the first
message (5 steps) the loop is back at the outer test with `nRead = 1500`, the second
message starts again from `nRead = 0`, and the loop ends after 6 reads that returned
3000 bytes. -/
theorem iohandler_byte_conservation_witness :
    GoodReads 2 thirds ∧
    ((run 2 thirds 3003).pc = Pc.done ∧
    (∀ k, (run 2 thirds k).pc = Pc.done →
      bytesRead thirds (run 2 thirds k).reads = 2 * 30 * 50) ∧
    (∀ k, (run 2 thirds k).nRead ≤ 1500) ∧
    (∀ k, (run 2 thirds k).pc ≠ Pc.inner → 0 < (run 2 thirds k).i →
      (run 2 thirds k).nRead = 1500)) ∧
    run 2 thirds 4 = ⟨Pc.outer, 1, 1500, 2, 3⟩ ∧
    run 2 thirds 5 = ⟨Pc.inner, 1, 0, 2, 3⟩ ∧
    run 2 thirds 9 = ⟨Pc.done, 2, 1500, 4, 6⟩ ∧
    bytesRead thirds 6 = 3000 :=
  ⟨thirds_good_two,
    iohandler_byte_conservation 2 30 50 thirds (by decide) (by decide) thirds_good_two,
    by decide, by decide, by decide, by decide⟩

/-- C4, refuted as stated: with `nreps = 1`, `nbufs = 1`, `bufsize = 1500` and a message
that arrives in three reads of 500 bytes, the loop ends with `count = 2`, which exceeds
`nreps * nbufs = 1`. -/
theorem iohandler_count_exceeds_nreps_times_nbufs :
    (1 : Int) ≤ 1 ∧ (1 : Int) * 1500 = 1500 ∧ GoodReads 1 thirds ∧
    (run 1 thirds 5).pc = Pc.done ∧ (run 1 thirds 5).count = 2 ∧
    ¬ ((run 1 thirds 5).count ≤ 1 * 1) :=
  ⟨by decide, by decide, thirds_good, by decide, by decide, by decide⟩

/-- C4, amended. For `nreps ≥ 1` with `1499 * nreps` within the range of `int` (that is
`nreps ≤ 1432610`), `nbufs * bufsize = 1500` and reads that each return at least 1 and
at most the requested number of bytes, the loop finishes with
`0 ≤ count ≤ nreps * (nbufs * bufsize - 1)`, that is at most 1499 counted reads per
message. -/
theorem iohandler_count_bounds (nreps nbufs bufsize : Int) (rs : Nat → Int)
    (h1 : 1 ≤ nreps) (hfit : 1499 * nreps ≤ 2147483647) (hm : nbufs * bufsize = 1500)
    (hg : GoodReads nreps rs) :
    (run nreps rs ((1501 * nreps).toNat + 1)).pc = Pc.done ∧
    ∀ k, (run nreps rs k).pc = Pc.done →
      0 ≤ (run nreps rs k).count ∧
        (run nreps rs k).count ≤ nreps * (nbufs * bufsize - 1) := by
  refine ⟨run_terminates nreps rs (by omega) hg, ?_⟩
  intro k _
  have hc := count_exact nreps rs (by omega) hfit hg k
  rw [hm]
  exact ⟨hc.2.1, by omega⟩

/-- Witness for C4 amended: two messages in three reads of 500 bytes each,
`count = 4 ≤ 2 * 1499`. -/
theorem iohandler_count_bounds_witness :
    ((run 2 thirds 3003).pc = Pc.done ∧
    ∀ k, (run 2 thirds k).pc = Pc.done →
      0 ≤ (run 2 thirds k).count ∧ (run 2 thirds k).count ≤ 2 * (1 * 1500 - 1)) ∧
    (run 2 thirds 9).count = 4 :=
  ⟨iohandler_count_bounds 2 1 1500 thirds (by decide) (by decide) (by decide)
    thirds_good_two, by decide⟩

/-- C10, refuted as stated: a sender total of `m = 3000` bytes per repetition does not
divide 1500, yet with `nreps = 1` the loop ends after one read of 1500 bytes. -/
theorem framing_loop_terminates_on_larger_sender :
    (1 : Int) ≤ 1 ∧ (1 : Int) ≤ 3000 ∧ ¬ ((3000 : Int) ∣ 1500) ∧
    StreamReads (1 * 3000) 1 whole ∧ (run 1 whole 3).pc = Pc.done :=
  ⟨by decide, by decide, by decide,
    streamReads_of_prefix (1 * 3000) 1 whole 3 (by decide) (by decide), by decide⟩

/-- C10, amended. With the incoming stream holding the sender's `nreps * m` bytes
(`nreps ≥ 1`, `m ≥ 1`) and then only reads that return 0, the framing loop never ends
when `m < 1500` (whether or not `m` divides 1500), and it ends when `m ≥ 1500`. -/
theorem framing_loop_ends_iff_enough_bytes (nreps m : Int) (rs : Nat → Int)
    (h1 : 1 ≤ nreps) (hm : 1 ≤ m) (hs : StreamReads (nreps * m) nreps rs) :
    (m < 1500 → ∀ k, (run nreps rs k).pc ≠ Pc.done) ∧
    (1500 ≤ m → (run nreps rs ((1501 * nreps).toNat + 1)).pc = Pc.done) := by
  constructor
  · intro hlt k
    have h2 : nreps * m < BUFSIZE * nreps := by
      simp only [BUFSIZE]; nlinarith
    exact never_done_of_short_stream (nreps * m) nreps rs (by omega) (by positivity) h2 hs k
  · intro hge
    have h2 : BUFSIZE * nreps ≤ nreps * m := by
      simp only [BUFSIZE]; nlinarith
    exact run_terminates nreps rs (by omega) (streamReads_good (by omega) hs h2)

/-- Witness for C10 amended: `nreps = 1`, `m = 750` (a divisor of 1500): after the 750
bytes every read returns 0 and the loop never ends. -/
theorem framing_loop_ends_iff_enough_bytes_witness :
    StreamReads (1 * 750) 1 halfThenNothing ∧
    ∀ k, (run 1 halfThenNothing k).pc ≠ Pc.done :=
  ⟨halfThenNothing_stream,
    (framing_loop_ends_iff_enough_bytes 1 750 halfThenNothing (by decide) (by decide)
      halfThenNothing_stream).1 (by decide)⟩

end Server

namespace Client

/-! ## The transmission loop -/

theorem row_databuf (nbufs bufsize j : Nat) (hj : j < nbufs) :
    row (databuf nbufs bufsize) bufsize j = List.replicate bufsize 'B' := by
  simp only [row, databuf, List.drop_replicate, List.take_replicate]
  congr 1
  have h : (j + 1) * bufsize ≤ nbufs * bufsize := Nat.mul_le_mul_right _ hj
  have h2 : (j + 1) * bufsize = j * bufsize + bufsize := by ring
  omega

theorem flatten_replicate_replicate (n m : Nat) (c : Char) :
    (List.replicate n (List.replicate m c)).flatten = List.replicate (n * m) c := by
  induction n with
  | zero => simp
  | succ n ih =>
    rw [List.replicate_succ, List.flatten_cons, ih, List.append_replicate_replicate]
    congr 1
    ring

theorem multipleRep_eq (nbufs bufsize : Nat) :
    multipleRep (databuf nbufs bufsize) nbufs bufsize =
      List.replicate nbufs (List.replicate bufsize 'B') := by
  unfold multipleRep
  rw [List.eq_replicate_iff]
  constructor
  · simp
  · intro b hb
    simp only [List.mem_map, List.mem_range] at hb
    obtain ⟨j, hj, rfl⟩ := hb
    exact row_databuf nbufs bufsize j hj

theorem writevRep_eq (nbufs bufsize : Nat) :
    writevRep (databuf nbufs bufsize) nbufs bufsize =
      List.replicate (nbufs * bufsize) 'B' := by
  have h := multipleRep_eq nbufs bufsize
  unfold multipleRep at h
  unfold writevRep
  rw [h, flatten_replicate_replicate]

theorem singleRep_eq (nbufs bufsize : Nat) (hfit : nbufs * bufsize ≤ 2147483647) :
    singleRep (databuf nbufs bufsize) nbufs bufsize =
      List.replicate (nbufs * bufsize) 'B' := by
  have hcount : toSizeT (toInt32 ((nbufs : Int) * (bufsize : Int))) = nbufs * bufsize := by
    have h1 : ((nbufs : Int) * (bufsize : Int)) = ((nbufs * bufsize : Nat) : Int) := by
      push_cast; rfl
    rw [h1]
    generalize nbufs * bufsize = n at hfit
    unfold toSizeT toInt32
    omega
  simp [singleRep, databuf, List.take_replicate, hcount]

theorem singleRep_length_le (nbufs bufsize : Nat) :
    (singleRep (databuf nbufs bufsize) nbufs bufsize).length ≤ nbufs * bufsize := by
  simp only [singleRep, databuf, List.length_take, List.length_replicate]
  omega

theorem flatten_flatMap_const (n : Nat) (l : List (List Char)) :
    ((List.range n).flatMap (fun _ => l)).flatten =
      (List.replicate n l.flatten).flatten := by
  induction n with
  | zero => simp
  | succ n ih =>
    rw [List.range_succ, List.flatMap_append, List.flatten_append, ih]
    simp only [List.flatMap_cons, List.flatMap_nil, List.append_nil]
    rw [List.replicate_succ', List.flatten_append]
    simp

theorem map_const_range (n : Nat) (l : List Char) :
    (List.range n).map (fun _ => l) = List.replicate n l := by
  rw [List.eq_replicate_iff]
  constructor
  · simp
  · intro b hb
    simp only [List.mem_map, List.mem_range] at hb
    obtain ⟨_, _, rfl⟩ := hb
    rfl

/-- For each of the three strategies, when `nbufs * bufsize` is within the range of
`int`, the buffers of the write calls, concatenated, are `nreps * nbufs * bufsize` bytes
`'B'`. -/
theorem calls_flatten (type : Int) (nreps nbufs bufsize : Nat)
    (hfit : nbufs * bufsize ≤ 2147483647)
    (ht : type = MULTIPLE ∨ type = WRITEV ∨ type = SINGLE) :
    ∃ bufs, calls type (databuf nbufs bufsize) nreps nbufs bufsize = some bufs ∧
      bufs.flatten = List.replicate (nreps * nbufs * bufsize) 'B' := by
  rcases ht with rfl | rfl | rfl
  · refine ⟨(List.range nreps).flatMap
      (fun _ => multipleRep (databuf nbufs bufsize) nbufs bufsize), by simp [calls], ?_⟩
    rw [flatten_flatMap_const, multipleRep_eq, flatten_replicate_replicate,
      flatten_replicate_replicate, Nat.mul_assoc]
  · refine ⟨(List.range nreps).map
      (fun _ => writevRep (databuf nbufs bufsize) nbufs bufsize),
      by simp [calls, MULTIPLE, WRITEV], ?_⟩
    rw [map_const_range, writevRep_eq, flatten_replicate_replicate, Nat.mul_assoc]
  · refine ⟨(List.range nreps).map
      (fun _ => singleRep (databuf nbufs bufsize) nbufs bufsize),
      by simp [calls, MULTIPLE, WRITEV, SINGLE], ?_⟩
    rw [map_const_range, singleRep_eq nbufs bufsize hfit, flatten_replicate_replicate,
      Nat.mul_assoc]

theorem flatten_replicate_length (n : Nat) (l : List Char) :
    (List.replicate n l).flatten.length = n * l.length := by
  induction n with
  | zero => simp
  | succ n ih =>
    rw [List.replicate_succ, List.flatten_cons, List.length_append, ih]
    ring

/-- For each of the three strategies, whatever the sizes, the write calls ask for no
more than `nreps * nbufs * bufsize` bytes in total. -/
theorem calls_length_le (type : Int) (nreps nbufs bufsize : Nat)
    (ht : type = MULTIPLE ∨ type = WRITEV ∨ type = SINGLE) :
    ∃ bufs, calls type (databuf nbufs bufsize) nreps nbufs bufsize = some bufs ∧
      bufs.flatten.length ≤ nreps * nbufs * bufsize := by
  rcases ht with rfl | rfl | rfl
  · refine ⟨(List.range nreps).flatMap
      (fun _ => multipleRep (databuf nbufs bufsize) nbufs bufsize), by simp [calls], ?_⟩
    rw [flatten_flatMap_const, multipleRep_eq, flatten_replicate_replicate,
      flatten_replicate_replicate, Nat.mul_assoc, List.length_replicate]
  · refine ⟨(List.range nreps).map
      (fun _ => writevRep (databuf nbufs bufsize) nbufs bufsize),
      by simp [calls, MULTIPLE, WRITEV], ?_⟩
    rw [map_const_range, writevRep_eq, flatten_replicate_replicate, Nat.mul_assoc,
      List.length_replicate]
  · refine ⟨(List.range nreps).map
      (fun _ => singleRep (databuf nbufs bufsize) nbufs bufsize),
      by simp [calls, MULTIPLE, WRITEV, SINGLE], ?_⟩
    rw [map_const_range, flatten_replicate_length, Nat.mul_assoc]
    exact Nat.mul_le_mul_left _ (singleRep_length_le nbufs bufsize)

theorem calls_none (type : Int) (mem : List Char) (nreps nbufs bufsize : Nat)
    (h1 : type ≠ MULTIPLE) (h2 : type ≠ WRITEV) (h3 : type ≠ SINGLE) :
    calls type mem nreps nbufs bufsize = none := by
  simp [calls, h1, h2, h3]

theorem sentBytes_append (a b : List Event) :
    sentBytes (a ++ b) = sentBytes a ++ sentBytes b := by
  induction a with
  | nil => rfl
  | cons e a ih => cases e <;> simp [sentBytes, ih]

theorem sentBytes_perform_full (wr : Nat → Nat → Int) (hfull : FullWrites wr) (k : Nat)
    (bufs : List (List Char)) : sentBytes (perform wr k bufs) = bufs.flatten := by
  induction bufs generalizing k with
  | nil => rfl
  | cons buf rest ih =>
    simp [perform, sentBytes, emitted, hfull k buf.length, ih]

theorem sentBytes_perform_le (wr : Nat → Nat → Int) (k : Nat) (bufs : List (List Char)) :
    (sentBytes (perform wr k bufs)).length ≤ bufs.flatten.length := by
  induction bufs generalizing k with
  | nil => simp [perform, sentBytes]
  | cons buf rest ih =>
    have := ih (k + 1)
    simp only [perform, sentBytes, emitted, List.length_append, List.length_take,
      List.flatten_cons]
    omega

/-- A write event of `perform` that emitted fewer bytes than requested makes the total
emitted smaller than the total requested. -/
theorem sentBytes_perform_lt (wr : Nat → Nat → Int) (k : Nat) (bufs : List (List Char))
    (h : ∃ req em, Event.write req em ∈ perform wr k bufs ∧ em.length < req) :
    (sentBytes (perform wr k bufs)).length < bufs.flatten.length := by
  induction bufs generalizing k with
  | nil => simp [perform] at h
  | cons buf rest ih =>
    obtain ⟨req, em, hmem, hlt⟩ := h
    simp only [perform, List.mem_cons, Event.write.injEq] at hmem
    simp only [perform, sentBytes, emitted, List.length_append, List.length_take,
      List.flatten_cons]
    rcases hmem with ⟨rfl, rfl⟩ | hmem
    · have := sentBytes_perform_le wr (k + 1) rest
      simp only [emitted, List.length_take] at hlt
      omega
    · have := ih (k + 1) ⟨req, em, hmem, hlt⟩
      omega

/-- The run in which nothing but the write calls and the acknowledgment can go wrong:
its trace and status. -/
theorem main_normal_exit (env : Env) (argv : List String) (evs : List Event)
    (hlen : argv.length = 7) (hhost : env.hostFound = true) (hsock : 0 ≤ env.socketRes)
    (hconn : 0 ≤ env.connectRes) (hstart : 0 ≤ env.startRes) (hlap : 0 ≤ env.lapRes)
    (hstop : 0 ≤ env.stopRes)
    (ht : transmit env.wr (argType env argv) (argNreps env argv) (argNbufs env argv)
      (argBufsize env argv) = some evs) :
    main env argv = ⟨[Event.socket, Event.connect] ++ evs ++
      [Event.readAck, Event.close,
        Event.print (printedUsec env.start env.lap) (printedUsec env.start env.stop)
          (countAfterAck env)], 0⟩ := by
  unfold main
  rw [ht]
  simp [hlen, hhost, not_lt.mpr hsock, not_lt.mpr hconn, not_lt.mpr hstart,
    not_lt.mpr hlap, not_lt.mpr hstop]

/-! ## Claims about the sender -/

/-- C3, refuted as stated: with `nreps = 1`, `nbufs = 65536`, `bufsize = 65536` and
complete writes, the `int` product `nbufs * bufsize` of the SINGLE branch wraps around
to 0, so SINGLE asks `write` for 0 bytes and hands nothing to the socket, while MULTIPLE
hands it 4294967296 bytes. -/
theorem single_differs_when_product_overflows :
    ∃ evM evS,
      transmit (fun _ n => n) MULTIPLE 1 65536 65536 = some evM ∧
      transmit (fun _ n => n) SINGLE 1 65536 65536 = some evS ∧
      evS = [Event.write 0 []] ∧ sentBytes evS = [] ∧
      (sentBytes evM).length = 4294967296 ∧ sentBytes evS ≠ sentBytes evM := by
  obtain ⟨bM, hM, hlen⟩ : ∃ bufs,
      calls MULTIPLE (databuf 65536 65536) 1 65536 65536 = some bufs ∧
        bufs.flatten = List.replicate (1 * 65536 * 65536) 'B' := by
    refine ⟨(List.range 1).flatMap
      (fun _ => multipleRep (databuf 65536 65536) 65536 65536), by simp [calls], ?_⟩
    rw [flatten_flatMap_const, multipleRep_eq, flatten_replicate_replicate,
      flatten_replicate_replicate, Nat.mul_assoc]
  have hcount : toSizeT (toInt32 (((65536 : Nat) : Int) * ((65536 : Nat) : Int))) = 0 := by
    decide
  have hS : calls SINGLE (databuf 65536 65536) 1 65536 65536 = some [[]] := by
    simp only [calls, MULTIPLE, WRITEV, SINGLE, singleRep, hcount, List.take_zero]
    rfl
  have hMsent : sentBytes (perform (fun _ n => n) 0 bM) =
      List.replicate (1 * 65536 * 65536) 'B' := by
    rw [sentBytes_perform_full _ (fun _ _ => rfl), hlen]
  have hMlen : (sentBytes (perform (fun _ n => n) 0 bM)).length = 4294967296 := by
    rw [hMsent, List.length_replicate]
  refine ⟨perform (fun _ n => n) 0 bM, [Event.write 0 []], ?_, ?_, rfl, rfl, hMlen, ?_⟩
  · simp [transmit, hM]
  · simp only [transmit, hS, Option.map_some']
    rfl
  · intro h
    rw [← h] at hMlen
    simp [sentBytes] at hMlen

/-- C3, amended. Strategy invariance of the sender: for sizes whose `int` product
`nbufs * bufsize` does not overflow (`nbufs * bufsize ≤ 2147483647`) and whose array
could be allocated, when every write/writev call emits all the bytes it is asked to,
the transmission loop hands the same bytes to the socket for MULTIPLE, WRITEV and
SINGLE, namely `nreps * nbufs * bufsize` bytes `'B'` (for all such `nreps`, `nbufs`,
`bufsize`, in particular those that are at least 1). -/
theorem sender_strategy_invariance (wr : Nat → Nat → Int) (nreps nbufs bufsize : Nat)
    (hfit : nbufs * bufsize ≤ 2147483647) (hfull : FullWrites wr) :
    ∃ evM evV evS,
      transmit wr MULTIPLE nreps nbufs bufsize = some evM ∧
      transmit wr WRITEV nreps nbufs bufsize = some evV ∧
      transmit wr SINGLE nreps nbufs bufsize = some evS ∧
      sentBytes evM = List.replicate (nreps * nbufs * bufsize) 'B' ∧
      sentBytes evV = sentBytes evM ∧ sentBytes evS = sentBytes evM := by
  obtain ⟨bM, hM, hMf⟩ := calls_flatten MULTIPLE nreps nbufs bufsize hfit (Or.inl rfl)
  obtain ⟨bV, hV, hVf⟩ :=
    calls_flatten WRITEV nreps nbufs bufsize hfit (Or.inr (Or.inl rfl))
  obtain ⟨bS, hS, hSf⟩ :=
    calls_flatten SINGLE nreps nbufs bufsize hfit (Or.inr (Or.inr rfl))
  refine ⟨perform wr 0 bM, perform wr 0 bV, perform wr 0 bS, ?_, ?_, ?_, ?_, ?_, ?_⟩
  · simp [transmit, hM]
  · simp [transmit, hV]
  · simp [transmit, hS]
  · rw [sentBytes_perform_full wr hfull, hMf]
  · rw [sentBytes_perform_full wr hfull, sentBytes_perform_full wr hfull, hMf, hVf]
  · rw [sentBytes_perform_full wr hfull, sentBytes_perform_full wr hfull, hMf, hSf]

/-- Witness for C3 amended: `nreps = 2`, `nbufs = 3`, `bufsize = 5` with complete
writes: MULTIPLE makes six writes of 5 bytes, WRITEV and SINGLE two writes of 15 bytes,
and each strategy hands the same 30 bytes `'B'` to the socket. -/
theorem sender_strategy_invariance_witness :
    (∃ evM evV evS,
      transmit (fun _ n => n) MULTIPLE 2 3 5 = some evM ∧
      transmit (fun _ n => n) WRITEV 2 3 5 = some evV ∧
      transmit (fun _ n => n) SINGLE 2 3 5 = some evS ∧
      sentBytes evM = List.replicate (2 * 3 * 5) 'B' ∧
      sentBytes evV = sentBytes evM ∧ sentBytes evS = sentBytes evM) ∧
    (transmit (fun _ n => n) MULTIPLE 2 3 5).map List.length = some 6 ∧
    (transmit (fun _ n => n) WRITEV 2 3 5).map List.length = some 2 ∧
    (transmit (fun _ n => n) SINGLE 2 3 5).map List.length = some 2 ∧
    (transmit (fun _ n => n) SINGLE 2 3 5).map sentBytes =
      some (List.replicate 30 'B') :=
  ⟨sender_strategy_invariance (fun _ n => n) 2 3 5 (by decide) (fun _ _ => rfl),
    by decide, by decide, by decide, by decide⟩

/-- C5, refuted as stated: with `client 5000 1 1 2 localhost 3` and a `write` that
returns 1 for the 2 bytes requested, the client hands one byte to the socket, prints its
statistics and ends with status 0. -/
theorem sender_truncates_on_short_write :
    main shortEnv singleArgv =
      ⟨[Event.socket, Event.connect, Event.write 2 ['B'], Event.readAck, Event.close,
        Event.print 5 9 0], 0⟩ ∧
    (sentBytes (main shortEnv singleArgv).trace).length <
      argNreps shortEnv singleArgv * argNbufs shortEnv singleArgv *
        argBufsize shortEnv singleArgv := by
  decide

/-- C5, amended. The sender does not look at what its write calls return: in a run in
which nothing else fails (seven arguments, host found, `socket`, `connect` and the three
`gettimeofday` calls succeed, `type` is 1, 2 or 3), if some write or writev call emits
fewer bytes than requested, the sender still ends with status 0 and has handed fewer
than `nreps * nbufs * bufsize` bytes to the socket. -/
theorem sender_short_write_exit_zero (env : Env) (argv : List String)
    (hlen : argv.length = 7) (hhost : env.hostFound = true) (hsock : 0 ≤ env.socketRes)
    (hconn : 0 ≤ env.connectRes) (hstart : 0 ≤ env.startRes) (hlap : 0 ≤ env.lapRes)
    (hstop : 0 ≤ env.stopRes)
    (htype : argType env argv = MULTIPLE ∨ argType env argv = WRITEV ∨
      argType env argv = SINGLE)
    (hshort : ∃ req em, Event.write req em ∈ (main env argv).trace ∧ em.length < req) :
    (main env argv).status = 0 ∧
    (sentBytes (main env argv).trace).length <
      argNreps env argv * argNbufs env argv * argBufsize env argv := by
  obtain ⟨bufs, hb, hbf⟩ :=
    calls_length_le (argType env argv) (argNreps env argv) (argNbufs env argv)
      (argBufsize env argv) htype
  have ht : transmit env.wr (argType env argv) (argNreps env argv) (argNbufs env argv)
      (argBufsize env argv) = some (perform env.wr 0 bufs) := by
    simp [transmit, hb]
  rw [main_normal_exit env argv _ hlen hhost hsock hconn hstart hlap hstop ht] at hshort ⊢
  refine ⟨rfl, ?_⟩
  have hlt := sentBytes_perform_lt env.wr 0 bufs (by
    obtain ⟨req, em, hmem, hlt⟩ := hshort
    simp only [List.mem_append, List.mem_cons, reduceCtorEq, List.mem_singleton,
      List.not_mem_nil, or_false, false_or] at hmem
    exact ⟨req, em, hmem, hlt⟩)
  have hsent : sentBytes ([Event.socket, Event.connect] ++ perform env.wr 0 bufs ++
      [Event.readAck, Event.close,
        Event.print (printedUsec env.start env.lap) (printedUsec env.start env.stop)
          (countAfterAck env)]) = sentBytes (perform env.wr 0 bufs) := by
    simp [sentBytes_append, sentBytes]
  rw [hsent]
  omega

/-- Witness for C5 amended: the run `client 5000 1 1 2 localhost 3` with a write that
returns 1. -/
theorem sender_short_write_exit_zero_witness :
    (main shortEnv singleArgv).status = 0 ∧
    (sentBytes (main shortEnv singleArgv).trace).length <
      argNreps shortEnv singleArgv * argNbufs shortEnv singleArgv *
        argBufsize shortEnv singleArgv :=
  sender_short_write_exit_zero shortEnv singleArgv (by decide) (by decide) (by decide)
    (by decide) (by decide) (by decide) (by decide) (by decide)
    ⟨2, ['B'], by decide, by decide⟩

/-- C8, refuted as stated: with the unknown strategy code 9 and a successful `connect`,
when the `gettimeofday` call before the transmission fails the client ends with status 1
and no `close` of the connected socket. -/
theorem unknown_type_without_close :
    0 ≤ clockFailsEnv.connectRes ∧ argType clockFailsEnv type9Argv = 9 ∧
    main clockFailsEnv type9Argv =
      ⟨[Event.socket, Event.connect, Event.diag Diag.startTime], 1⟩ ∧
    Event.close ∉ (main clockFailsEnv type9Argv).trace := by
  decide

/-- C8, amended. For every `type` other than 1, 2, 3, once `connect` has succeeded the
client makes no write call, reads no acknowledgment, prints no statistics and ends with
status 1; when the `gettimeofday` call for the start time, made between `connect` and
the choice of the strategy, has succeeded, what it does after `connect` is to report the
invalid type and close the connected socket. -/
theorem unknown_type_exit (env : Env) (argv : List String)
    (hlen : argv.length = 7) (hhost : env.hostFound = true) (hsock : 0 ≤ env.socketRes)
    (hconn : 0 ≤ env.connectRes)
    (h1 : argType env argv ≠ MULTIPLE) (h2 : argType env argv ≠ WRITEV)
    (h3 : argType env argv ≠ SINGLE) :
    (main env argv).status = EXIT_FAILURE ∧
    sentBytes (main env argv).trace = [] ∧
    (∀ req em, Event.write req em ∉ (main env argv).trace) ∧
    Event.readAck ∉ (main env argv).trace ∧
    (∀ a b c, Event.print a b c ∉ (main env argv).trace) ∧
    (0 ≤ env.startRes → (main env argv).trace =
      [Event.socket, Event.connect, Event.diag Diag.invalidType, Event.close]) := by
  have ht : transmit env.wr (argType env argv) (argNreps env argv) (argNbufs env argv)
      (argBufsize env argv) = none := by
    simp [transmit, calls_none _ _ _ _ _ h1 h2 h3]
  unfold main
  rw [ht]
  by_cases hstart : env.startRes < 0
  · simp [hlen, hhost, not_lt.mpr hsock, not_lt.mpr hconn, hstart, sentBytes]
  · simp [hlen, hhost, not_lt.mpr hsock, not_lt.mpr hconn, hstart, sentBytes]

/-- Witness for C8 amended: `client 5000 1 1 2 localhost 9` in an environment where
everything succeeds. -/
theorem unknown_type_exit_witness :
    (main fineEnv type9Argv).status = EXIT_FAILURE ∧
    sentBytes (main fineEnv type9Argv).trace = [] ∧
    (∀ req em, Event.write req em ∉ (main fineEnv type9Argv).trace) ∧
    Event.readAck ∉ (main fineEnv type9Argv).trace ∧
    (∀ a b c, Event.print a b c ∉ (main fineEnv type9Argv).trace) ∧
    (main fineEnv type9Argv).trace =
      [Event.socket, Event.connect, Event.diag Diag.invalidType, Event.close] :=
  have h := unknown_type_exit fineEnv type9Argv (by decide) (by decide) (by decide)
    (by decide) (by decide) (by decide) (by decide)
  ⟨h.1, h.2.1, h.2.2.1, h.2.2.2.1, h.2.2.2.2.1, h.2.2.2.2.2 (by decide)⟩

end Client

namespace Server

/-! ## Argument validation of the server -/

/-- C7, refuted as stated: with the valid command line `server 5000 1` and a `socket`
call that fails, the server ends with status 1 and binds nothing. -/
theorem server_valid_args_without_bind :
    goodArgv.length = 3 ∧ argPort ⟨atoiDigits, -1⟩ goodArgv = 5000 ∧
    argNreps ⟨atoiDigits, -1⟩ goodArgv = 1 ∧
    main ⟨atoiDigits, -1⟩ goodArgv =
      ⟨[Event.socket, Event.diag Diag.socketFailure], some 1⟩ ∧
    ¬ ∃ p, Event.bind p ∈ (main ⟨atoiDigits, -1⟩ goodArgv).trace := by
  refine ⟨by decide, by decide, by decide, by decide, ?_⟩
  rintro ⟨p, hp⟩
  have h : main ⟨atoiDigits, -1⟩ goodArgv =
      ⟨[Event.socket, Event.diag Diag.socketFailure], some 1⟩ := by decide
  rw [h] at hp
  simp at hp

/-- C7, amended. The server's `main` calls `socket` if and only if `argc = 3`,
`1024 ≤ port ≤ 65535` and `nreps ≥ 1`.  With such arguments and a `socket` call that
returns a non-negative descriptor it sets the socket option, binds the port, listens
with backlog 5 and stays alive; with such arguments and a failing `socket` call it
reports the failure and ends with the non-zero status `EXIT_FAILURE` without binding or
listening.  So it binds, and listens, if and only if the arguments are valid and
`socket` succeeded.  For every other invocation it ends with the non-zero status
`EXIT_FAILURE` before any socket is created, bound or listened on. -/
theorem server_main_validation (env : MainEnv) (argv : List String) :
    (Event.socket ∈ (main env argv).trace ↔ ValidArgs env argv) ∧
    ((∃ p, Event.bind p ∈ (main env argv).trace) ↔
      (ValidArgs env argv ∧ 0 ≤ env.socketRes)) ∧
    ((∃ b, Event.listen b ∈ (main env argv).trace) ↔
      (ValidArgs env argv ∧ 0 ≤ env.socketRes)) ∧
    (ValidArgs env argv → 0 ≤ env.socketRes →
      main env argv =
        ⟨[Event.socket, Event.setsockopt, Event.bind (argPort env argv), Event.listen 5],
          none⟩) ∧
    (ValidArgs env argv → env.socketRes < 0 →
      main env argv =
        ⟨[Event.socket, Event.diag Diag.socketFailure], some EXIT_FAILURE⟩) ∧
    (¬ ValidArgs env argv →
      (main env argv).status = some EXIT_FAILURE ∧
      Event.socket ∉ (main env argv).trace ∧
      (∀ p, Event.bind p ∉ (main env argv).trace) ∧
      ∀ b, Event.listen b ∉ (main env argv).trace) ∧
    EXIT_FAILURE ≠ 0 := by
  unfold main ValidArgs
  by_cases hlen : argv.length = 3
  · by_cases hport : argPort env argv < 1024 ∨ argPort env argv > 65535
    · have : ¬ (1024 ≤ argPort env argv ∧ argPort env argv ≤ 65535 ∧
          1 ≤ argNreps env argv) := by omega
      simp [hlen, hport, this, EXIT_FAILURE]
    · by_cases hn : argNreps env argv < 1
      · have : ¬ (1024 ≤ argPort env argv ∧ argPort env argv ≤ 65535 ∧
            1 ≤ argNreps env argv) := by omega
        simp [hlen, hport, hn, this, EXIT_FAILURE]
      · have hv : 1024 ≤ argPort env argv ∧ argPort env argv ≤ 65535 ∧
            1 ≤ argNreps env argv := by omega
        by_cases hs : env.socketRes < 0
        · simp [hlen, hport, hn, hv, hs, EXIT_FAILURE]
        · simp [hlen, hport, hn, hv, hs, not_lt.mp hs, EXIT_FAILURE]
  · simp [hlen, EXIT_FAILURE]

/-- Witness for C7 amended: `server 5000 1` with a successful `socket` binds port 5000
and listens; `server 5000 1` with a failing `socket` ends with status 1; `server 80 1`
ends with status 1 before any socket is created, bound or listened on. -/
theorem server_main_validation_witness :
    main ⟨atoiDigits, 3⟩ goodArgv =
      ⟨[Event.socket, Event.setsockopt, Event.bind 5000, Event.listen 5], none⟩ ∧
    main ⟨atoiDigits, -1⟩ goodArgv =
      ⟨[Event.socket, Event.diag Diag.socketFailure], some 1⟩ ∧
    ((main ⟨atoiDigits, 3⟩ port80Argv).status = some 1 ∧
      Event.socket ∉ (main ⟨atoiDigits, 3⟩ port80Argv).trace ∧
      (∀ p, Event.bind p ∉ (main ⟨atoiDigits, 3⟩ port80Argv).trace) ∧
      ∀ b, Event.listen b ∉ (main ⟨atoiDigits, 3⟩ port80Argv).trace) :=
  ⟨(server_main_validation ⟨atoiDigits, 3⟩ goodArgv).2.2.2.1
      (by unfold ValidArgs; decide) (by decide),
    (server_main_validation ⟨atoiDigits, -1⟩ goodArgv).2.2.2.2.1
      (by unfold ValidArgs; decide) (by decide),
    (server_main_validation ⟨atoiDigits, 3⟩ port80Argv).2.2.2.2.2.1
      (by unfold ValidArgs; decide)⟩

end Server

/-! ## Printed durations -/

/-- C9, refuted as stated: from `start = (0 s, 0 us)` to `stop = (2148 s, 0 us)` the
elapsed time is 2148000000 us, and the value printed after the cast to `int` is
negative. -/
theorem printed_duration_negative :
    Timeval.normal ⟨0, 0⟩ ∧ Timeval.normal ⟨2148, 0⟩ ∧ Timeval.le ⟨0, 0⟩ ⟨2148, 0⟩ ∧
    elapsedUsec ⟨0, 0⟩ ⟨2148, 0⟩ = 2148000000 ∧
    printedUsec ⟨0, 0⟩ ⟨2148, 0⟩ = -2146967296 ∧
    ¬ (0 ≤ printedUsec ⟨0, 0⟩ ⟨2148, 0⟩) := by
  simp only [Timeval.normal, Timeval.le]
  decide

/-- C9, amended. For timestamps with `0 ≤ tv_usec < 1000000` and `start ≤ stop` whose
distance is less than `2^31` microseconds, the value printed by the client and the
server is non-negative and equals the elapsed microseconds; and on the client, when
`T0 ≤ T1 ≤ T2` and `T2 - T0` is less than `2^31` microseconds, the printed data-sending
time is at most the printed round-trip time. -/
theorem printed_duration_within_int :
    (∀ start stop : Timeval, start.normal → stop.normal → start.le stop →
      elapsedUsec start stop < 2147483648 →
      0 ≤ printedUsec start stop ∧ printedUsec start stop = elapsedUsec start stop) ∧
    (∀ t0 t1 t2 : Timeval, t0.normal → t1.normal → t2.normal → t0.le t1 → t1.le t2 →
      elapsedUsec t0 t2 < 2147483648 →
      printedUsec t0 t1 ≤ printedUsec t0 t2) := by
  constructor
  · intro start stop hs ht hle hfit
    simp only [Timeval.normal, Timeval.le, elapsedUsec, printedUsec] at *
    rw [toInt32_of_range _ (by omega) (by omega)]
    omega
  · intro t0 t1 t2 h0 h1 h2 h01 h12 hfit
    simp only [Timeval.normal, Timeval.le, elapsedUsec, printedUsec] at *
    rw [toInt32_of_range _ (by omega) (by omega), toInt32_of_range _ (by omega) (by omega)]
    omega

/-- Witness for C9 amended: 2.5 seconds of sending inside a round trip of 3 seconds. -/
theorem printed_duration_within_int_witness :
    (0 ≤ printedUsec ⟨10, 900000⟩ ⟨13, 400000⟩ ∧
      printedUsec ⟨10, 900000⟩ ⟨13, 400000⟩ = elapsedUsec ⟨10, 900000⟩ ⟨13, 400000⟩) ∧
    printedUsec ⟨10, 900000⟩ ⟨13, 400000⟩ ≤ printedUsec ⟨10, 900000⟩ ⟨13, 900000⟩ :=
  ⟨printed_duration_within_int.1 ⟨10, 900000⟩ ⟨13, 400000⟩
      (by simp only [Timeval.normal]; decide) (by simp only [Timeval.normal]; decide)
      (by simp only [Timeval.le]; decide) (by decide),
    printed_duration_within_int.2 ⟨10, 900000⟩ ⟨13, 400000⟩ ⟨13, 900000⟩
      (by simp only [Timeval.normal]; decide) (by simp only [Timeval.normal]; decide)
      (by simp only [Timeval.normal]; decide) (by simp only [Timeval.le]; decide)
      (by simp only [Timeval.le]; decide) (by decide)⟩

/-! ## Results of `read` and `write` are not checked -/

/-- C6, refuted as stated.  Receiver: with `nreps = 1` and reads that return -1, 1 and
1500, the -1 is added to `nRead` and counted (after the first read `nRead = -1` and
`count = 1`), and the handler writes back the count 2, prints, closes and exits with
status 0.  Sender: when every write call and the read of the acknowledgment return -1
the client still prints its statistics and ends with status 0. -/
theorem negative_results_are_not_fatal :
    Server.failsOnce 0 = -1 ∧
    Server.run 1 Server.failsOnce 2 = ⟨Server.Pc.inner, 0, -1, 1, 1⟩ ∧
    Server.iohandler ⟨0, ⟨0, 0⟩, 0, ⟨0, 7⟩, Server.failsOnce⟩ 1 5 =
      some ⟨[Server.Event.writeCount 2, Server.Event.print 7, Server.Event.close],
        some 0⟩ ∧
    Client.main Client.failingEnv Client.singleArgv =
      ⟨[Client.Event.socket, Client.Event.connect, Client.Event.write 2 [],
        Client.Event.readAck, Client.Event.close, Client.Event.print 5 9 0], 0⟩ := by
  decide

/-- C6, amended. Neither endpoint looks at what `read` and `write` return.  In every run
of the framing loop a negative read result `r` (with `nRead ≤ 1500` and `nRead + r` in
the range of `int`) is added to `nRead`, the read is counted and the loop goes on to the
next read.  In the sender, whatever the write calls and the read of the acknowledgment
return, a run with seven arguments, a host that is found, successful `socket`,
`connect` and `gettimeofday` calls and a `type` among 1, 2, 3 reads the acknowledgment,
closes, prints the statistics and ends with status 0. -/
theorem read_write_results_unchecked :
    (∀ (nreps : Int) (rs : Nat → Int) (k : Nat),
      (Server.run nreps rs k).pc = Server.Pc.inner →
      rs (Server.run nreps rs k).reads < 0 →
      (Server.run nreps rs k).nRead ≤ Server.BUFSIZE →
      -2147483648 ≤ (Server.run nreps rs k).nRead + rs (Server.run nreps rs k).reads →
      Server.run nreps rs (k + 1) =
        { Server.run nreps rs k with
          nRead := (Server.run nreps rs k).nRead + rs (Server.run nreps rs k).reads,
          count := toInt32 ((Server.run nreps rs k).count + 1),
          reads := (Server.run nreps rs k).reads + 1 }) ∧
    (∀ (env : Client.Env) (argv : List String),
      argv.length = 7 → env.hostFound = true → 0 ≤ env.socketRes → 0 ≤ env.connectRes →
      0 ≤ env.startRes → 0 ≤ env.lapRes → 0 ≤ env.stopRes →
      (Client.argType env argv = Client.MULTIPLE ∨ Client.argType env argv = Client.WRITEV ∨
        Client.argType env argv = Client.SINGLE) →
      (Client.main env argv).status = 0 ∧
      ∃ writes, (Client.main env argv).trace =
        [Client.Event.socket, Client.Event.connect] ++ writes ++
          [Client.Event.readAck, Client.Event.close,
            Client.Event.print (printedUsec env.start env.lap)
              (printedUsec env.start env.stop) (Client.countAfterAck env)]) := by
  constructor
  · intro nreps rs k
    rw [Server.run_succ]
    generalize Server.run nreps rs k = s
    intro hpc hr hn hlow
    obtain ⟨pc, i, nRead, count, reads⟩ := s
    simp only [Server.BUFSIZE] at hn
    simp only at hpc hr hlow
    subst hpc
    have hcast : toInt32 (nRead + rs reads) = nRead + rs reads :=
      toInt32_of_range _ hlow (by omega)
    have hlt : nRead + rs reads < Server.BUFSIZE := by
      simp only [Server.BUFSIZE]; omega
    simp [Server.step, hcast, hlt]
  · intro env argv hlen hhost hsock hconn hstart hlap hstop htype
    obtain ⟨bufs, hb, _⟩ :=
      Client.calls_length_le (Client.argType env argv) (Client.argNreps env argv)
        (Client.argNbufs env argv) (Client.argBufsize env argv) htype
    have ht : Client.transmit env.wr (Client.argType env argv) (Client.argNreps env argv)
        (Client.argNbufs env argv) (Client.argBufsize env argv) =
        some (Client.perform env.wr 0 bufs) := by
      simp [Client.transmit, hb]
    rw [Client.main_normal_exit env argv _ hlen hhost hsock hconn hstart hlap hstop ht]
    exact ⟨rfl, _, rfl⟩

/-- Witness for C6 amended: the read that returns -1 at the start of a message, and the
client run `client 5000 1 1 2 localhost 3` in which the write and the read of the
acknowledgment return -1. -/
theorem read_write_results_unchecked_witness :
    Server.run 1 Server.failsOnce (1 + 1) =
      { Server.run 1 Server.failsOnce 1 with
        nRead := (Server.run 1 Server.failsOnce 1).nRead +
          Server.failsOnce (Server.run 1 Server.failsOnce 1).reads,
        count := toInt32 ((Server.run 1 Server.failsOnce 1).count + 1),
        reads := (Server.run 1 Server.failsOnce 1).reads + 1 } ∧
    (Client.main Client.failingEnv Client.singleArgv).status = 0 :=
  ⟨read_write_results_unchecked.1 1 Server.failsOnce 1 (by decide) (by decide)
      (by decide) (by decide),
    (read_write_results_unchecked.2 Client.failingEnv Client.singleArgv (by decide)
      (by decide) (by decide) (by decide) (by decide) (by decide) (by decide)
      (by decide)).1⟩
